import Mathlib

/-!
# Verification of the `reprint` source-rewriting core

A shallow embedding of the Rust crate `reprint` (`src/lib.rs`): a batch of
byte-range text substitutions is validated, applied to an in-memory copy of a
file's content, and the result is persisted with a temp-file / backup-file
rename protocol.

File content and replacement text are modelled as `List Nat` (byte sequences);
`u32`/`usize` offsets are modelled as `Nat` (the code performs only
comparisons and widening casts on them, no wrapping arithmetic).  Rust slice
indexing `input[a..b]` aborts the process when the bounds are invalid; the
embedding makes that abort an explicit `panicked` result value.
-/

namespace Reprint

/-- `Change` from `src/lib.rs`: one byte-range replacement.  `start_byte` and
`end_byte` delimit the half-open replaced span, `text` is the replacement
bytes. -/
structure Change where
  start_byte : Nat
  end_byte : Nat
  text : List Nat
deriving DecidableEq

/-- Bytes of an ASCII string literal, for concrete test inputs. -/
def strBytes (s : String) : List Nat :=
  s.data.map Char.toNat

/-- Ordering used by `changes.sort()` in `reprint`: the `Ord for Change`
impl compares solely by `start_byte`. -/
def changeLe (a b : Change) : Prop :=
  a.start_byte ≤ b.start_byte

instance : DecidableRel changeLe :=
  fun a b => inferInstanceAs (Decidable (a.start_byte ≤ b.start_byte))

instance : IsTotal Change changeLe :=
  ⟨fun a b => Nat.le_total a.start_byte b.start_byte⟩

instance : IsTrans Change changeLe :=
  ⟨fun _ _ _ h1 h2 => Nat.le_trans h1 h2⟩

/-- Strict version of `changeLe`, used to identify sorted lists uniquely. -/
def changeLt (a b : Change) : Prop :=
  a.start_byte < b.start_byte

instance : IsAntisymm Change changeLt :=
  ⟨fun _ _ h1 h2 => absurd h1 (Nat.lt_asymm h2)⟩

/-- `changes.sort()` from `reprint`: Rust's `Vec::sort` is a stable sort under
the `Ord for Change` comparison (`start_byte` only).  A stable sort's output
is uniquely determined by the comparison (sorted, ties in input order), so the
stable `List.insertionSort` computes the same list as Rust's stable merge
sort. -/
def sortChanges (changes : List Change) : List Change :=
  List.insertionSort changeLe changes

/-- The error results of `verify` in `src/lib.rs` (the code formats them as
strings; the constructors carry the same data the messages interpolate). -/
inductive VerifyErr where
  | malformed (startByte : Nat)
  | overlapping (prevStart prevEnd startByte endByte : Nat)
deriving DecidableEq

/-- Loop of `verify` from `src/lib.rs`, threading `prev_start`/`prev_end`
(both initialised to 0).  `none` is `Ok(())`, `some e` is `Err`. -/
def verifyGo : Nat → Nat → List Change → Option VerifyErr
  | _, _, [] => none
  | prevStart, prevEnd, ch :: rest =>
    if ch.end_byte < ch.start_byte then
      some (VerifyErr.malformed ch.start_byte)
    else if ch.start_byte < prevEnd then
      some (VerifyErr.overlapping prevStart prevEnd ch.start_byte ch.end_byte)
    else
      verifyGo ch.start_byte ch.end_byte rest

/-- `verify` from `src/lib.rs`.  Assumes its argument is sorted. -/
def verify (changes : List Change) : Option VerifyErr :=
  verifyGo 0 0 changes

/-- The spec's non-overlap condition on an (already sorted) change list: each
change's `start_byte` is at least the previous change's `end_byte`. -/
def sepOK : List Change → Bool
  | [] => true
  | [_] => true
  | a :: b :: rest => decide (a.end_byte ≤ b.start_byte) && sepOK (b :: rest)

/-- Result of `process` from `src/lib.rs`.  `ok` is `Ok(())` together with the
final output buffer; `inputOutOfRange`/`changeOutOfRange` are the two
`Err(..)` returns (carrying the offsets their messages interpolate);
`panicked` is a Rust slice-bounds abort, which is not a `Result` at all. -/
inductive ProcOut where
  | ok (buf : List Nat)
  | inputOutOfRange (inPos len : Nat)
  | changeOutOfRange (startByte len : Nat)
  | panicked
deriving DecidableEq

/-- Rust slice `l[a..b]`; callers must establish `a ≤ b ≤ l.length` or the
program aborts (modelled at each use site). -/
def slice (l : List Nat) (a b : Nat) : List Nat :=
  (l.take b).drop a

/-- Loop of `process` from `src/lib.rs`: walks the changes accumulating the
output buffer `buf` and the input cursor `in_pos`.  The slice
`input[in_pos..ch.start_byte]` aborts unless `in_pos ≤ ch.start_byte` (its
upper bound is already checked strict by the guard), and the trailing slice
`input[in_pos..]` aborts unless `in_pos ≤ input.length`. -/
def processGo (input : List Nat) : Nat → List Change → List Nat → ProcOut
  | inPos, [], buf =>
    if inPos ≤ input.length then
      ProcOut.ok (buf ++ input.drop inPos)
    else
      ProcOut.panicked
  | inPos, ch :: rest, buf =>
    if inPos ≥ input.length then
      ProcOut.inputOutOfRange inPos input.length
    else if ch.start_byte ≥ input.length then
      ProcOut.changeOutOfRange ch.start_byte input.length
    else if inPos ≤ ch.start_byte then
      processGo input ch.end_byte rest (buf ++ slice input inPos ch.start_byte ++ ch.text)
    else
      ProcOut.panicked

/-- `process` from `src/lib.rs`.  The Rust function appends to a caller-passed
buffer; `reprint` always passes a fresh one, modelled by the `[]` seed. -/
def process (input : List Nat) (changes : List Change) : ProcOut :=
  processGo input 0 changes []

/-- The file-system state visible to `write_file`: the content (if any) at the
target path and at its two derived siblings `<path>.tmp` and `<path>.bk`. -/
structure FSState where
  path : Option (List Nat)
  tmp : Option (List Nat)
  bk : Option (List Nat)
deriving DecidableEq

/-- Error results of `write_file` in the model.  `pathCollision true` is the
`<path>.tmp` existence check firing, `pathCollision false` the `<path>.bk`
one; `renameFailure` is the first rename failing because no file exists at the
target path. -/
inductive WriteErr where
  | pathCollision (tmpSibling : Bool)
  | renameFailure
deriving DecidableEq

/-- `write_file` from `src/lib.rs` run in an environment where the I/O calls
themselves succeed: check both sibling paths for collisions, write the buffer
to `<path>.tmp`, rename `<path>` to `<path>.bk`, rename `<path>.tmp` to
`<path>`.  Spontaneous I/O failures (and the states they strand) are covered
by the `WriteStep` relation below. -/
def write_file (fs : FSState) (buf : List Nat) : FSState × Option WriteErr :=
  if fs.tmp.isSome then
    (fs, some (WriteErr.pathCollision true))
  else if fs.bk.isSome then
    (fs, some (WriteErr.pathCollision false))
  else
    match fs.path with
    | none => ({ fs with tmp := some buf }, some WriteErr.renameFailure)
    | some old => ({ path := some buf, tmp := none, bk := some old }, none)

/-- One observable file-system transition of a `write_file` run whose
collision checks passed, starting from old content `old` at the path and
writing buffer `new`: create the temp file, append chunks of the buffer to
it, rename the original to the backup, rename the temp file into place.  A
run that fails mid-way simply stops at an intermediate state. -/
inductive WriteStep (old new : List Nat) : FSState → FSState → Prop
  | createTmp :
      WriteStep old new ⟨some old, none, none⟩ ⟨some old, some [], none⟩
  | writeChunk (k k2 : Nat) :
      WriteStep old new ⟨some old, some (new.take k), none⟩
        ⟨some old, some (new.take k2), none⟩
  | renameToBk :
      WriteStep old new ⟨some old, some new, none⟩ ⟨none, some new, some old⟩
  | renameTmpToPath :
      WriteStep old new ⟨none, some new, some old⟩ ⟨some new, none, some old⟩

/-- The outcome `reprint` reports: success, or the diagnostic it prints
(`verify` error, read error, `process` error), or — outside the code's own
error channel — a `process` slice abort, or a `write_file` error. -/
inductive Outcome where
  | success
  | verifyError (e : VerifyErr)
  | readError
  | outOfRange (isInPos : Bool) (off len : Nat)
  | panicked
  | writeError (e : WriteErr)
deriving DecidableEq

/-- `reprint` from `src/lib.rs`, over the file-system model: sort, verify,
read the target file, process, write.  Returns the final file-system state
and the outcome; every failure leaves the state unchanged except `write_file`
failures, which return whatever state `write_file` left. -/
def reprint (fs : FSState) (changes : List Change) : FSState × Outcome :=
  match verify (sortChanges changes) with
  | some e => (fs, Outcome.verifyError e)
  | none =>
    match fs.path with
    | none => (fs, Outcome.readError)
    | some input =>
      match process input (sortChanges changes) with
      | ProcOut.inputOutOfRange a b => (fs, Outcome.outOfRange true a b)
      | ProcOut.changeOutOfRange a b => (fs, Outcome.outOfRange false a b)
      | ProcOut.panicked => (fs, Outcome.panicked)
      | ProcOut.ok buf =>
        match write_file fs buf with
        | (fs2, some e) => (fs2, Outcome.writeError e)
        | (fs2, none) => (fs2, Outcome.success)

/-! ## Helper lemmas -/

/-- Unfolding equation for `processGo` on an exhausted change list. -/
theorem processGo_nil (input : List Nat) (inPos : Nat) (buf : List Nat) :
    processGo input inPos [] buf =
      if inPos ≤ input.length then ProcOut.ok (buf ++ input.drop inPos)
      else ProcOut.panicked :=
  rfl

/-- Unfolding equation for `processGo` on a remaining change. -/
theorem processGo_cons (input : List Nat) (inPos : Nat) (ch : Change)
    (rest : List Change) (buf : List Nat) :
    processGo input inPos (ch :: rest) buf =
      if inPos ≥ input.length then ProcOut.inputOutOfRange inPos input.length
      else if ch.start_byte ≥ input.length then
        ProcOut.changeOutOfRange ch.start_byte input.length
      else if inPos ≤ ch.start_byte then
        processGo input ch.end_byte rest (buf ++ slice input inPos ch.start_byte ++ ch.text)
      else ProcOut.panicked :=
  rfl

/-- A successful `verifyGo` step bounds the head's `start_byte` from below by
the running `prev_end`. -/
theorem verifyGo_none_head (ps pe : Nat) (b : Change) (rest : List Change)
    (h : verifyGo ps pe (b :: rest) = none) : pe ≤ b.start_byte := by
  unfold verifyGo at h
  split_ifs at h with h1 h2
  omega

/-- A successful `verifyGo` run on a cons is a successful run on its tail with
the head's offsets as the new running pair. -/
theorem verifyGo_none_tail (ps pe : Nat) (b : Change) (rest : List Change)
    (h : verifyGo ps pe (b :: rest) = none) :
    verifyGo b.start_byte b.end_byte rest = none := by
  unfold verifyGo at h
  split_ifs at h
  exact h

/-- A change list accepted by the `verify` loop is separated: each change's
`start_byte` is at least the previous change's `end_byte`. -/
theorem sepOK_of_verifyGo_none :
    ∀ (ps pe : Nat) (l : List Change), verifyGo ps pe l = none → sepOK l = true
  | _, _, [], _ => rfl
  | _, _, [_], _ => rfl
  | ps, pe, a :: b :: rest, h => by
    have ht := verifyGo_none_tail ps pe a (b :: rest) h
    have hh := verifyGo_none_head a.start_byte a.end_byte b rest ht
    have ih := sepOK_of_verifyGo_none a.start_byte a.end_byte (b :: rest) ht
    unfold sepOK
    simp only [Bool.and_eq_true, decide_eq_true_eq]
    exact ⟨hh, ih⟩

/-- Two permutations of one change list with pairwise-distinct `start_byte`s
sort to the same list: the comparison used by `sortChanges` is total and, on
distinct starts, effectively antisymmetric. -/
theorem sortChanges_eq_of_perm (l1 l2 : List Change) (hperm : l1.Perm l2)
    (hnodup : (l1.map Change.start_byte).Nodup) :
    sortChanges l1 = sortChanges l2 := by
  have p1 : (sortChanges l1).Perm l1 := List.perm_insertionSort changeLe l1
  have p2 : (sortChanges l2).Perm l2 := List.perm_insertionSort changeLe l2
  have p : (sortChanges l1).Perm (sortChanges l2) := p1.trans (hperm.trans p2.symm)
  have hsymm : ∀ {a b : Change},
      a.start_byte ≠ b.start_byte → b.start_byte ≠ a.start_byte :=
    fun h h2 => h h2.symm
  have hd1 : List.Pairwise (fun a b : Change => a.start_byte ≠ b.start_byte) l1 :=
    List.pairwise_map.mp hnodup
  have hd1' := (p1.pairwise_iff hsymm).mpr hd1
  have hd2' := (p2.pairwise_iff hsymm).mpr ((hperm.pairwise_iff hsymm).mp hd1)
  have s1 : List.Pairwise changeLe (sortChanges l1) := List.sorted_insertionSort changeLe l1
  have s2 : List.Pairwise changeLe (sortChanges l2) := List.sorted_insertionSort changeLe l2
  have lt1 : List.Pairwise changeLt (sortChanges l1) :=
    s1.imp₂ (fun _ _ hle hne => Nat.lt_of_le_of_ne hle hne) hd1'
  have lt2 : List.Pairwise changeLt (sortChanges l2) :=
    s2.imp₂ (fun _ _ hle hne => Nat.lt_of_le_of_ne hle hne) hd2'
  exact List.eq_of_perm_of_sorted p lt1 lt2

/-! ## Claim theorems -/

/-- Claim C1, counterexample: on content `"abc"` with changes
`[(0,0,"X"), (3,3,"Y")]`, `process` does not produce `"XabcY"`; the change
`(3,3,"Y")` trips the `start_byte >= input.len()` guard and `process` returns
the out-of-range error instead, so an insertion with
`start_byte == end_byte == content length` is not accepted. -/
theorem c1_counterexample :
    process (strBytes "abc") [⟨0, 0, strBytes "X"⟩, ⟨3, 3, strBytes "Y"⟩] =
      ProcOut.changeOutOfRange 3 3 ∧
    process (strBytes "abc") [⟨0, 0, strBytes "X"⟩, ⟨3, 3, strBytes "Y"⟩] ≠
      ProcOut.ok (strBytes "XabcY") := by
  decide

/-- Claim C1, amended: on `"abc"` with `[(0,0,t1), (3,3,t2)]` the applier
fails with the out-of-range error for the second change; a change with
`start_byte == end_byte` strictly below the content length is a valid pure
insertion at that offset, but a pure insertion at offset equal to the content
length (end of file) is rejected as out of range. -/
theorem c1_amended :
    (∀ t1 t2 : List Nat,
        process (strBytes "abc") [⟨0, 0, t1⟩, ⟨3, 3, t2⟩] =
          ProcOut.changeOutOfRange 3 3) ∧
    (∀ (input : List Nat) (ch : Change),
        ch.start_byte = ch.end_byte → ch.start_byte < input.length →
        process input [ch] =
          ProcOut.ok (input.take ch.start_byte ++ ch.text ++ input.drop ch.start_byte)) ∧
    (∀ (input : List Nat) (ch : Change),
        0 < input.length → ch.start_byte = input.length →
        process input [ch] = ProcOut.changeOutOfRange input.length input.length) := by
  refine ⟨fun t1 t2 => rfl, ?_, ?_⟩
  · intro input ch h1 h2
    unfold process
    rw [processGo_cons, if_neg (by omega), if_neg (by omega), if_pos (by omega),
      processGo_nil, if_pos (by omega)]
    rw [← h1]
    simp [slice]
  · intro input ch h1 h2
    unfold process
    rw [processGo_cons, if_neg (by omega), if_pos (by omega), h2]

/-- Claim C1, witness for the amended statement: a pure insertion strictly
inside the content succeeds, and one at the content length fails. -/
theorem c1_witness :
    process [5, 6] [⟨1, 1, [9]⟩] = ProcOut.ok ([5, 6].take 1 ++ [9] ++ [5, 6].drop 1) ∧
    process [5, 6] [⟨2, 2, [9]⟩] = ProcOut.changeOutOfRange 2 2 :=
  ⟨c1_amended.2.1 [5, 6] ⟨1, 1, [9]⟩ rfl (by decide),
   c1_amended.2.2 [5, 6] ⟨2, 2, [9]⟩ (by decide) rfl⟩

/-- Claim C2: the change `(1,10,"Z")` on content `"abc"` is sorted and passes
`verify` (start below the length, end beyond it), yet `process` neither
succeeds nor returns the out-of-range error: the trailing slice
`input[in_pos..]` with `in_pos = 10 > 3` is out of bounds, an abort.  The
defensive re-check never examines `end_byte`. -/
theorem c2_code_bug :
    sortChanges [(⟨1, 10, strBytes "Z"⟩ : Change)] = [⟨1, 10, strBytes "Z"⟩] ∧
    verify [(⟨1, 10, strBytes "Z"⟩ : Change)] = none ∧
    (1 : Nat) < (strBytes "abc").length ∧ (strBytes "abc").length < 10 ∧
    process (strBytes "abc") [⟨1, 10, strBytes "Z"⟩] = ProcOut.panicked := by
  decide

/-- Claim C3: `reprint` is not abort-free.  On a file holding `"hello"`, the
single change `(0,9,"x")` passes sorting and verification, and `process`
then aborts on the trailing slice (`in_pos = 9 > 5`): a reachable execution
takes an out-of-bounds slice index. -/
theorem c3_code_bug :
    reprint ⟨some (strBytes "hello"), none, none⟩ [⟨0, 9, strBytes "x"⟩] =
      ((⟨some (strBytes "hello"), none, none⟩ : FSState), Outcome.panicked) := by
  decide

/-- Claim C4, counterexample: two pure insertions at the same offset are a
non-overlapping changeset (separated after sorting), yet giving `reprint` the
two orders of the same two changes produces different output buffers — the
sort is stable and compares only `start_byte`, so it preserves either input
order. -/
theorem c4_counterexample :
    List.Perm [Change.mk 1 1 (strBytes "A"), Change.mk 1 1 (strBytes "B")]
      [Change.mk 1 1 (strBytes "B"), Change.mk 1 1 (strBytes "A")] ∧
    sepOK (sortChanges [Change.mk 1 1 (strBytes "A"), Change.mk 1 1 (strBytes "B")]) = true ∧
    reprint ⟨some (strBytes "abc"), none, none⟩
        [Change.mk 1 1 (strBytes "A"), Change.mk 1 1 (strBytes "B")] =
      ((⟨some (strBytes "aABbc"), none, some (strBytes "abc")⟩ : FSState), Outcome.success) ∧
    reprint ⟨some (strBytes "abc"), none, none⟩
        [Change.mk 1 1 (strBytes "B"), Change.mk 1 1 (strBytes "A")] =
      ((⟨some (strBytes "aBAbc"), none, some (strBytes "abc")⟩ : FSState), Outcome.success) ∧
    reprint ⟨some (strBytes "abc"), none, none⟩
        [Change.mk 1 1 (strBytes "A"), Change.mk 1 1 (strBytes "B")] ≠
      reprint ⟨some (strBytes "abc"), none, none⟩
        [Change.mk 1 1 (strBytes "B"), Change.mk 1 1 (strBytes "A")] := by
  decide

/-- Claim C4, amended: for a non-overlapping changeset whose changes
additionally have pairwise-distinct `start_byte`s, every permutation sorts to
the same list, and hence `reprint` behaves identically on it. -/
theorem c4_amended (l1 l2 : List Change) (fs : FSState)
    (hperm : l1.Perm l2)
    (hnodup : (l1.map Change.start_byte).Nodup)
    (_hsep : sepOK (sortChanges l1) = true) :
    sortChanges l1 = sortChanges l2 ∧ reprint fs l1 = reprint fs l2 := by
  have hs := sortChanges_eq_of_perm l1 l2 hperm hnodup
  refine ⟨hs, ?_⟩
  unfold reprint
  rw [hs]

/-- Claim C4, witness: two distinct-start, non-overlapping changes supplied
in either order behave identically. -/
theorem c4_witness :
    sortChanges [⟨4, 5, [1]⟩, ⟨0, 2, [2]⟩] = sortChanges [⟨0, 2, [2]⟩, ⟨4, 5, [1]⟩] ∧
    reprint ⟨some [9, 9, 9, 9, 9, 9], none, none⟩ [⟨4, 5, [1]⟩, ⟨0, 2, [2]⟩] =
      reprint ⟨some [9, 9, 9, 9, 9, 9], none, none⟩ [⟨0, 2, [2]⟩, ⟨4, 5, [1]⟩] :=
  c4_amended [⟨4, 5, [1]⟩, ⟨0, 2, [2]⟩] [⟨0, 2, [2]⟩, ⟨4, 5, [1]⟩]
    ⟨some [9, 9, 9, 9, 9, 9], none, none⟩ (by decide) (by decide) (by decide)

/-- Claim C5: along every run of the `write_file` protocol (modelled as the
`WriteStep` transition relation started from old content at the path and no
sibling files), every reachable file-system state keeps the old content under
the original path or the backup path, or the new content under the original
path; and the original path only ever holds the full old content, nothing, or
the full new content — never a prefix of the output before the final rename
has happened. -/
theorem c5_write_file_durable (old new : List Nat) (s : FSState)
    (h : Relation.ReflTransGen (WriteStep old new) ⟨some old, none, none⟩ s) :
    (s.path = some old ∨ s.bk = some old ∨ s.path = some new) ∧
    (s.path = some old ∨ s.path = none ∨ s.path = some new) := by
  have inv : (s.path = some old ∧ s.bk = none) ∨
      (s.path = none ∧ s.tmp = some new ∧ s.bk = some old) ∨
      (s.path = some new ∧ s.bk = some old) := by
    induction h with
    | refl => exact Or.inl ⟨rfl, rfl⟩
    | tail _ hstep _ =>
      cases hstep with
      | createTmp => exact Or.inl ⟨rfl, rfl⟩
      | writeChunk k k2 => exact Or.inl ⟨rfl, rfl⟩
      | renameToBk => exact Or.inr (Or.inl ⟨rfl, rfl, rfl⟩)
      | renameTmpToPath => exact Or.inr (Or.inr ⟨rfl, rfl⟩)
  rcases inv with ⟨h1, _⟩ | ⟨h1, _, h3⟩ | ⟨h1, _⟩
  · exact ⟨Or.inl h1, Or.inl h1⟩
  · exact ⟨Or.inr (Or.inl h3), Or.inr (Or.inl h1)⟩
  · exact ⟨Or.inr (Or.inr h1), Or.inr (Or.inr h1)⟩

/-- Claim C5, witness: the state just after the first rename (old content at
the backup, new content at the temp file, nothing at the path) is reachable
and satisfies both recoverability conjuncts. -/
theorem c5_witness :
    ((⟨none, some [1], some [0]⟩ : FSState).path = some [0] ∨
      (⟨none, some [1], some [0]⟩ : FSState).bk = some [0] ∨
      (⟨none, some [1], some [0]⟩ : FSState).path = some [1]) ∧
    ((⟨none, some [1], some [0]⟩ : FSState).path = some [0] ∨
      (⟨none, some [1], some [0]⟩ : FSState).path = none ∨
      (⟨none, some [1], some [0]⟩ : FSState).path = some [1]) :=
  c5_write_file_durable [0] [1] ⟨none, some [1], some [0]⟩
    (Relation.ReflTransGen.tail
      (Relation.ReflTransGen.tail
        (Relation.ReflTransGen.tail Relation.ReflTransGen.refl WriteStep.createTmp)
        (WriteStep.writeChunk 0 1))
      WriteStep.renameToBk)

/-- Claim C6: if the temp sibling or the backup sibling already exists,
`write_file` fails with a path collision and returns the file-system state it
was given — no write and no rename has been performed. -/
theorem c6_path_collision (fs : FSState) (buf : List Nat)
    (h : fs.tmp.isSome = true ∨ fs.bk.isSome = true) :
    ∃ b, write_file fs buf = (fs, some (WriteErr.pathCollision b)) := by
  unfold write_file
  rcases h with h | h
  · rw [if_pos h]
    exact ⟨true, rfl⟩
  · by_cases ht : fs.tmp.isSome = true
    · rw [if_pos ht]
      exact ⟨true, rfl⟩
    · rw [if_neg ht, if_pos h]
      exact ⟨false, rfl⟩

/-- Claim C6, witness: a leftover temp file makes `write_file` report a
collision and leave the state untouched. -/
theorem c6_witness :
    ∃ b, write_file ⟨some [7], some [0], none⟩ [1] =
      ((⟨some [7], some [0], none⟩ : FSState), some (WriteErr.pathCollision b)) :=
  c6_path_collision ⟨some [7], some [0], none⟩ [1] (Or.inl rfl)

/-- Claim C7: the changeset with ranges `[2,5)` and `[4,8)` makes `reprint`
fail with the overlapping-changes verification error, whatever the texts, and
leaves the file-system state unchanged; in general, whenever the sorted
changeset has some change starting before the previous one ends, verification
fails and `reprint` returns its input state untouched. -/
theorem c7_overlap_rejected :
    (∀ (fs : FSState) (t u : List Nat),
        reprint fs [⟨2, 5, t⟩, ⟨4, 8, u⟩] =
          (fs, Outcome.verifyError (VerifyErr.overlapping 2 5 4 8))) ∧
    (∀ (fs : FSState) (changes : List Change),
        sepOK (sortChanges changes) = false →
        ∃ e, reprint fs changes = (fs, Outcome.verifyError e)) := by
  constructor
  · intro fs t u
    have hs : sortChanges [⟨2, 5, t⟩, ⟨4, 8, u⟩] = [⟨2, 5, t⟩, ⟨4, 8, u⟩] :=
      List.Sorted.insertionSort_eq (by simp [List.sorted_cons, changeLe])
    have hv : verify [(⟨2, 5, t⟩ : Change), ⟨4, 8, u⟩] =
        some (VerifyErr.overlapping 2 5 4 8) := by
      simp [verify, verifyGo]
    unfold reprint
    rw [hs, hv]
  · intro fs changes hsep
    cases hv : verify (sortChanges changes) with
    | some e =>
      refine ⟨e, ?_⟩
      unfold reprint
      rw [hv]
    | none =>
      rw [sepOK_of_verifyGo_none 0 0 (sortChanges changes) hv] at hsep
      exact Bool.noConfusion hsep

/-- Claim C7, witness: the two overlapping ranges, supplied out of order with
empty texts, are rejected by verification with the state unchanged. -/
theorem c7_witness :
    ∃ e, reprint ⟨some [3], none, none⟩ [⟨4, 8, []⟩, ⟨2, 5, []⟩] =
      ((⟨some [3], none, none⟩ : FSState), Outcome.verifyError e) :=
  c7_overlap_rejected.2 ⟨some [3], none, none⟩ [⟨4, 8, []⟩, ⟨2, 5, []⟩] (by decide)

/-- Claim C8: applying the empty changeset reproduces the input byte for
byte, and `reprint` with the empty changeset leaves the content at the target
path unchanged whatever the file-system state. -/
theorem c8_noop_identity :
    (∀ input : List Nat, process input [] = ProcOut.ok input) ∧
    (∀ fs : FSState, ((reprint fs []).1).path = fs.path) := by
  have hp : ∀ input : List Nat, process input [] = ProcOut.ok input := by
    intro input
    simp [process, processGo]
  refine ⟨hp, ?_⟩
  intro fs
  rcases fs with ⟨p, t, b⟩
  cases p with
  | none => rfl
  | some input =>
    cases t <;> cases b <;>
      simp [reprint, sortChanges, verify, verifyGo, hp input, write_file]

/-- Claim C9: on `"Hello, world!"` the change `(7,12,"Rust")` produces
exactly `"Hello, Rust!"` (its `end_byte` is the content length minus one);
and in general a single change whose `end_byte` equals the content length
splices with an empty trailing append: the output is the prefix before
`start_byte` followed by the replacement text. -/
theorem c9_hello_rust :
    process (strBytes "Hello, world!") [⟨7, 12, strBytes "Rust"⟩] =
      ProcOut.ok (strBytes "Hello, Rust!") ∧
    (∀ (input : List Nat) (ch : Change),
        ch.start_byte < input.length → ch.start_byte ≤ ch.end_byte →
        ch.end_byte = input.length →
        process input [ch] = ProcOut.ok (input.take ch.start_byte ++ ch.text)) := by
  refine ⟨by decide, ?_⟩
  intro input ch h1 h2 h3
  unfold process
  rw [processGo_cons, if_neg (by omega), if_neg (by omega), if_pos (by omega),
    processGo_nil, if_pos (by omega), h3]
  simp [slice]

/-- Claim C9, witness: a change replacing the suffix `[6]` of `[5, 6]` by
`[9]` yields the prefix plus the replacement. -/
theorem c9_witness :
    process [5, 6] [⟨1, 2, [9]⟩] = ProcOut.ok ([5, 6].take 1 ++ [9]) :=
  c9_hello_rust.2 [5, 6] ⟨1, 2, [9]⟩ (by decide) (by decide) rfl

/-- Claim C10: on empty content, `process` fails with the `in_pos`
out-of-range error for every non-empty changeset (the very first iteration
trips `in_pos >= input.len()`, i.e. `0 >= 0`), while the empty changeset
succeeds with empty output; consequently `reprint` on a file holding zero
bytes never succeeds with a non-empty changeset. -/
theorem c10_empty_input :
    (∀ (c : Change) (cs : List Change),
        process [] (c :: cs) = ProcOut.inputOutOfRange 0 0) ∧
    process ([] : List Nat) [] = ProcOut.ok [] ∧
    (∀ (t b : Option (List Nat)) (c : Change) (cs : List Change),
        (reprint ⟨some [], t, b⟩ (c :: cs)).2 ≠ Outcome.success) := by
  refine ⟨fun c cs => rfl, rfl, ?_⟩
  intro t b c cs
  cases hv : verify (sortChanges (c :: cs)) with
  | some e =>
    simp [reprint, hv]
  | none =>
    have hlen : (sortChanges (c :: cs)).length = (c :: cs).length :=
      (List.perm_insertionSort changeLe (c :: cs)).length_eq
    match hs : sortChanges (c :: cs) with
    | [] =>
      rw [hs] at hlen
      simp at hlen
    | d :: ds =>
      have hp : process [] (sortChanges (c :: cs)) = ProcOut.inputOutOfRange 0 0 := by
        rw [hs]
        rfl
      simp [reprint, hv, hp]

end Reprint
